import Mathlib

/-!
Verification of the f/d-value pipeline.

Shallow embedding of `f_and_d_values.py`: a single-pass pipeline that loads a
wide per-read/per-position p-value table, rejects duplicate read ids, reshapes
the table to long form (`longify`), groups observations by genomic position and
computes bucket counts, coverage, fractions, and the Tombo f-value and d-value
per position.  P-values and derived ratios are modelled as rationals; the IEEE
not-a-number result of a float `0/0` is modelled as `none` of an `Option`.
-/

/-- Tombo's lower threshold constant: `LOWER_THRESH = 0.05`. -/
def LOWER_THRESH : ℚ := 1/20

/-- Tombo's upper threshold constant: `UPPER_THRESH = 0.40`. -/
def UPPER_THRESH : ℚ := 2/5

/-- One long-form observation, as produced by `longify`
(a row of the `raw` dataframe): a read id, a 0-based position, a p-value. -/
structure Obs where
  read_id : String
  pos_0b : Int
  pval : ℚ
deriving DecidableEq, Repr

/-- A wide per-read/per-position table, as produced by `load_csv`:
integer column labels (positions) and rows of (read id, optional p-values).
A cell holding `none` is a missing (NaN) cell of the CSV. -/
structure WideTable where
  cols : List Int
  rows : List (String × List (Option ℚ))
deriving DecidableEq, Repr

/-- `longify`: `df.stack().rename('pval').dropna().reset_index()` — enumerate the
cells row-major and keep the present ones as `Obs` records. -/
def longify (w : WideTable) : List Obs :=
  w.rows.flatMap fun row =>
    (w.cols.zip row.2).filterMap fun pc => pc.2.map fun v => ⟨row.1, pc.1, v⟩

/-- Float division as pandas performs it on the aggregated columns: the only
zero denominators reachable in this program are of the form `0/0`, whose IEEE
result is NaN, modelled by `none`. -/
def nanDiv (x y : ℚ) : Option ℚ := if y = 0 then none else some (x / y)

/-- One row of the `results` dataframe. -/
structure PositionStats where
  pos_0b : Int
  num_below_lower_thresh : Nat
  num_above_upper_thresh : Nat
  covg : Nat
  frac_below_lower_thresh : Option ℚ
  frac_above_upper_thresh : Option ℚ
  f_value : Option ℚ
  d_value : Option ℚ
deriving DecidableEq, Repr

/-- The distinct positions of the observations, ascending — `groupby('pos_0b')`
sorts the group keys. -/
def sortedPositions (raw : List Obs) : List Int :=
  List.insertionSort (· ≤ ·) (raw.map Obs.pos_0b).dedup

/-- The aggregated row for position `p`: bucket counts with strict threshold
comparisons, coverage, fractions, f-value and d-value, exactly as the
`.assign`/`.agg`/`.assign` chain computes them. -/
def statsFor (L U : ℚ) (raw : List Obs) (p : Int) : PositionStats :=
  let grp := raw.filter fun o => o.pos_0b = p
  let b := (grp.filter fun o => o.pval < L).length
  let a := (grp.filter fun o => U < o.pval).length
  let c := grp.length
  ⟨p, b, a, c, nanDiv b c, nanDiv a c, nanDiv b (b + a), nanDiv b (b + a + 2)⟩

/-- The `results` dataframe: one `PositionStats` row per distinct position,
ascending by position. -/
def results (L U : ℚ) (raw : List Obs) : List PositionStats :=
  (sortedPositions raw).map (statsFor L U raw)

/-- The spec's abstract error taxonomy for the fatal failure modes of the
pipeline; the duplicate-read-id guard raises the `DuplicateKeyError` case. -/
inductive PipelineError where
  | duplicateKey
deriving DecidableEq, Repr

/-- The pipeline from a loaded `WideTable` to the written rows: the uniqueness
guard on the row labels, then `longify` and the aggregation.  An `error`
result models the raised exception, in which case no output file is produced. -/
def pipeline (w : WideTable) : Except PipelineError (List PositionStats) :=
  if (w.rows.map Prod.fst).Nodup then
    Except.ok (results LOWER_THRESH UPPER_THRESH (longify w))
  else
    Except.error PipelineError.duplicateKey

/-- `widify`: pivot a long-form record set back to a wide table
(`df.set_index(['read_id', 'pos_0b']).unstack()`): one column per distinct
position, one row per distinct read id, cells looked up from the records. -/
def widify (obs : List Obs) : WideTable :=
  let cols := sortedPositions obs
  let rids := (obs.map Obs.read_id).dedup
  ⟨cols, rids.map fun r =>
    (r, cols.map fun p =>
      (obs.find? fun o => o.read_id = r ∧ o.pos_0b = p).map Obs.pval)⟩

/-- The cell of a wide table at row label `r` and column label `p`, with every
form of absence (missing cell, absent row, absent column) read as `none`. -/
def cellAt (w : WideTable) (r : String) (p : Int) : Option ℚ :=
  (w.rows.find? fun row => row.1 = r).bind fun row =>
    ((w.cols.zip row.2).find? fun pc => pc.1 = p).bind Prod.snd

/-- The end-to-end example input of the spec: 3 reads over positions 0 and 1,
position 0 carrying p-values 0.01, 0.50, 0.60 and position 1 carrying
0.02, 0.03 and a missing cell. -/
def exampleWide : WideTable :=
  ⟨[0, 1], [("r1", [some (1/100), some (2/100)]),
            ("r2", [some (1/2), some (3/100)]),
            ("r3", [some (3/5), none])]⟩

/-- A wide table carrying the same read id on two rows, violating the
uniqueness invariant. -/
def dupWide : WideTable :=
  ⟨[0], [("r1", [some (1/10)]), ("r1", [none])]⟩

/-! ## General lemmas about the aggregation -/

theorem mem_sortedPositions {raw : List Obs} {p : Int} :
    p ∈ sortedPositions raw ↔ p ∈ raw.map Obs.pos_0b := by
  unfold sortedPositions
  rw [List.mem_insertionSort, List.mem_dedup]

theorem sortedPositions_sorted_lt (raw : List Obs) :
    (sortedPositions raw).Sorted (· < ·) := by
  apply List.Sorted.lt_of_le
  · exact List.sorted_insertionSort _ _
  · exact (List.perm_insertionSort _ _).nodup_iff.mpr (List.nodup_dedup _)

theorem mem_results {L U : ℚ} {raw : List Obs} {r : PositionStats} :
    r ∈ results L U raw ↔ ∃ p ∈ sortedPositions raw, statsFor L U raw p = r := by
  simp [results]

theorem statsFor_pos_0b (L U : ℚ) (raw : List Obs) (p : Int) :
    (statsFor L U raw p).pos_0b = p := rfl

theorem statsFor_num_below (L U : ℚ) (raw : List Obs) (p : Int) :
    (statsFor L U raw p).num_below_lower_thresh
      = (raw.filter fun o => o.pos_0b = p ∧ o.pval < L).length := by
  simp only [statsFor, List.filter_filter]
  congr 1
  apply List.filter_congr
  intro o _
  simp [Bool.and_comm]

theorem statsFor_num_above (L U : ℚ) (raw : List Obs) (p : Int) :
    (statsFor L U raw p).num_above_upper_thresh
      = (raw.filter fun o => o.pos_0b = p ∧ U < o.pval).length := by
  simp only [statsFor, List.filter_filter]
  congr 1
  apply List.filter_congr
  intro o _
  simp [Bool.and_comm]

theorem statsFor_covg (L U : ℚ) (raw : List Obs) (p : Int) :
    (statsFor L U raw p).covg = (raw.filter fun o => o.pos_0b = p).length := rfl

theorem nanDiv_eq_some {x y : ℚ} (h : y ≠ 0) : nanDiv x y = some (x / y) := by
  simp [nanDiv, h]

theorem statsFor_mem_results {L U : ℚ} {raw : List Obs} {p : Int}
    (hp : p ∈ raw.map Obs.pos_0b) : statsFor L U raw p ∈ results L U raw :=
  List.mem_map_of_mem _ (mem_sortedPositions.mpr hp)

theorem exampleWide_positions : (longify exampleWide).map Obs.pos_0b = [0, 1, 0, 1, 0] := rfl

theorem filter_pos_and (raw : List Obs) (p : Int) (q : Obs → Prop) [DecidablePred q] :
    (raw.filter fun o => o.pos_0b = p ∧ q o)
      = (raw.filter fun o => o.pos_0b = p).filter fun o => q o := by
  rw [List.filter_filter]
  apply List.filter_congr
  intro o _
  simp [Bool.and_comm]

/-- Any list of observations splits into the below bucket, the above bucket and
the inclusive middle band, provided the thresholds are ordered. -/
theorem length_bucket_partition {L U : ℚ} (hLU : L ≤ U) (l : List Obs) :
    l.length = (l.filter fun o => o.pval < L).length
      + (l.filter fun o => U < o.pval).length
      + (l.filter fun o => L ≤ o.pval ∧ o.pval ≤ U).length := by
  induction l with
  | nil => rfl
  | cons o t ih =>
    by_cases h1 : o.pval < L
    · have h2 : ¬ U < o.pval := fun h2 => absurd (h1.trans_le (hLU.trans h2.le)) (lt_irrefl _)
      have h3 : ¬ (L ≤ o.pval ∧ o.pval ≤ U) := fun h3 => absurd h1 (not_lt.mpr h3.1)
      simp [List.filter_cons, h1, h2, h3, ih]
      omega
    · by_cases h2 : U < o.pval
      · have h3 : ¬ (L ≤ o.pval ∧ o.pval ≤ U) := fun h3 => absurd h2 (not_lt.mpr h3.2)
        simp [List.filter_cons, h1, h2, h3, ih]
        omega
      · have h3 : L ≤ o.pval ∧ o.pval ≤ U := ⟨not_lt.mp h1, not_lt.mp h2⟩
        simp [List.filter_cons, h1, h2, h3, ih]
        omega

/-! ## Claim theorems -/

/-- C1: for every position group in the aggregated output, `f_value` is the
(float) quotient `num_below_lower_thresh / (num_below_lower_thresh +
num_above_upper_thresh)` — the exact rational whenever the denominator is
nonzero — and `d_value` is the quotient `num_below_lower_thresh /
(num_below_lower_thresh + num_above_upper_thresh + 2)`, always defined. -/
theorem f_and_d_value_formulas (raw : List Obs) (r : PositionStats)
    (hr : r ∈ results LOWER_THRESH UPPER_THRESH raw) :
    r.f_value = nanDiv r.num_below_lower_thresh
        (r.num_below_lower_thresh + r.num_above_upper_thresh)
    ∧ (r.num_below_lower_thresh + r.num_above_upper_thresh ≠ 0 →
        r.f_value = some ((r.num_below_lower_thresh : ℚ)
          / (r.num_below_lower_thresh + r.num_above_upper_thresh)))
    ∧ r.d_value = some ((r.num_below_lower_thresh : ℚ)
        / (r.num_below_lower_thresh + r.num_above_upper_thresh + 2)) := by
  obtain ⟨p, -, rfl⟩ := mem_results.mp hr
  refine ⟨rfl, fun hne => ?_, ?_⟩
  · have h : ((statsFor LOWER_THRESH UPPER_THRESH raw p).num_below_lower_thresh : ℚ)
        + ((statsFor LOWER_THRESH UPPER_THRESH raw p).num_above_upper_thresh : ℚ) ≠ 0 := by
      exact_mod_cast hne
    exact nanDiv_eq_some h
  · have h : ((statsFor LOWER_THRESH UPPER_THRESH raw p).num_below_lower_thresh : ℚ)
        + ((statsFor LOWER_THRESH UPPER_THRESH raw p).num_above_upper_thresh : ℚ) + 2 ≠ 0 := by
      positivity
    exact nanDiv_eq_some h

theorem f_and_d_value_formulas_witness :
    (let r := statsFor LOWER_THRESH UPPER_THRESH (longify exampleWide) 0
     r.f_value = nanDiv r.num_below_lower_thresh
        (r.num_below_lower_thresh + r.num_above_upper_thresh)
     ∧ (r.num_below_lower_thresh + r.num_above_upper_thresh ≠ 0 →
        r.f_value = some ((r.num_below_lower_thresh : ℚ)
          / (r.num_below_lower_thresh + r.num_above_upper_thresh)))
     ∧ r.d_value = some ((r.num_below_lower_thresh : ℚ)
        / (r.num_below_lower_thresh + r.num_above_upper_thresh + 2))) :=
  f_and_d_value_formulas (longify exampleWide)
    (statsFor LOWER_THRESH UPPER_THRESH (longify exampleWide) 0)
    (statsFor_mem_results (by rw [exampleWide_positions]; simp))

/-- C2: classification is strict for every observation: a p-value counts toward
`num_below_lower_thresh` exactly when it is `< LOWER_THRESH`, toward
`num_above_upper_thresh` exactly when it is `> UPPER_THRESH`, `covg` counts
every observation of the position, and a p-value equal to either threshold
satisfies neither strict comparison (so it lands in neither bucket). -/
theorem classification_strict (raw : List Obs) (r : PositionStats)
    (hr : r ∈ results LOWER_THRESH UPPER_THRESH raw) :
    r.num_below_lower_thresh
      = (raw.filter fun o => o.pos_0b = r.pos_0b ∧ o.pval < LOWER_THRESH).length
    ∧ r.num_above_upper_thresh
      = (raw.filter fun o => o.pos_0b = r.pos_0b ∧ UPPER_THRESH < o.pval).length
    ∧ r.covg = (raw.filter fun o => o.pos_0b = r.pos_0b).length
    ∧ (∀ o : Obs, o.pval = LOWER_THRESH ∨ o.pval = UPPER_THRESH →
        ¬(o.pval < LOWER_THRESH) ∧ ¬(UPPER_THRESH < o.pval)) := by
  obtain ⟨p, -, rfl⟩ := mem_results.mp hr
  rw [statsFor_pos_0b]
  refine ⟨statsFor_num_below _ _ _ _, statsFor_num_above _ _ _ _,
    statsFor_covg _ _ _ _, ?_⟩
  rintro o (h | h) <;> rw [h] <;> refine ⟨?_, ?_⟩ <;>
    norm_num [LOWER_THRESH, UPPER_THRESH]

theorem classification_strict_witness :
    (let raw := longify exampleWide
     let r := statsFor LOWER_THRESH UPPER_THRESH raw 0
     r.num_below_lower_thresh
       = (raw.filter fun o => o.pos_0b = r.pos_0b ∧ o.pval < LOWER_THRESH).length
     ∧ r.num_above_upper_thresh
       = (raw.filter fun o => o.pos_0b = r.pos_0b ∧ UPPER_THRESH < o.pval).length
     ∧ r.covg = (raw.filter fun o => o.pos_0b = r.pos_0b).length
     ∧ (∀ o : Obs, o.pval = LOWER_THRESH ∨ o.pval = UPPER_THRESH →
        ¬(o.pval < LOWER_THRESH) ∧ ¬(UPPER_THRESH < o.pval))) :=
  classification_strict (longify exampleWide)
    (statsFor LOWER_THRESH UPPER_THRESH (longify exampleWide) 0)
    (statsFor_mem_results (by rw [exampleWide_positions]; simp))

/-- C4: coverage identity: every output row satisfies `covg =
num_below_lower_thresh + num_above_upper_thresh + (observations of the position
whose p-value lies between the thresholds inclusive)`. -/
theorem coverage_identity (raw : List Obs) (r : PositionStats)
    (hr : r ∈ results LOWER_THRESH UPPER_THRESH raw) :
    r.covg = r.num_below_lower_thresh + r.num_above_upper_thresh
      + (raw.filter fun o => o.pos_0b = r.pos_0b
          ∧ LOWER_THRESH ≤ o.pval ∧ o.pval ≤ UPPER_THRESH).length := by
  obtain ⟨p, -, rfl⟩ := mem_results.mp hr
  rw [statsFor_pos_0b, filter_pos_and]
  exact length_bucket_partition (by norm_num [LOWER_THRESH, UPPER_THRESH]) _

theorem coverage_identity_witness :
    (let raw := longify exampleWide
     let r := statsFor LOWER_THRESH UPPER_THRESH raw 0
     r.covg = r.num_below_lower_thresh + r.num_above_upper_thresh
       + (raw.filter fun o => o.pos_0b = r.pos_0b
           ∧ LOWER_THRESH ≤ o.pval ∧ o.pval ≤ UPPER_THRESH).length) :=
  coverage_identity (longify exampleWide)
    (statsFor LOWER_THRESH UPPER_THRESH (longify exampleWide) 0)
    (statsFor_mem_results (by rw [exampleWide_positions]; simp))

theorem statsFor_f_value (L U : ℚ) (raw : List Obs) (p : Int) :
    (statsFor L U raw p).f_value
      = nanDiv (statsFor L U raw p).num_below_lower_thresh
          ((statsFor L U raw p).num_below_lower_thresh
            + (statsFor L U raw p).num_above_upper_thresh) := rfl

theorem statsFor_d_value (L U : ℚ) (raw : List Obs) (p : Int) :
    (statsFor L U raw p).d_value
      = nanDiv (statsFor L U raw p).num_below_lower_thresh
          ((statsFor L U raw p).num_below_lower_thresh
            + (statsFor L U raw p).num_above_upper_thresh + 2) := rfl

theorem statsFor_frac_below (L U : ℚ) (raw : List Obs) (p : Int) :
    (statsFor L U raw p).frac_below_lower_thresh
      = nanDiv (statsFor L U raw p).num_below_lower_thresh
          (statsFor L U raw p).covg := rfl

theorem statsFor_frac_above (L U : ℚ) (raw : List Obs) (p : Int) :
    (statsFor L U raw p).frac_above_upper_thresh
      = nanDiv (statsFor L U raw p).num_above_upper_thresh
          (statsFor L U raw p).covg := rfl

theorem results_map_pos (L U : ℚ) (raw : List Obs) :
    (results L U raw).map PositionStats.pos_0b = sortedPositions raw := by
  rw [results, List.map_map]
  exact List.map_id _

/-- C9: the output contains exactly one row per distinct position occurring in
the observations — row positions are strictly ascending (hence distinct), and a
position has a row exactly when some observation carries it. -/
theorem output_one_sorted_row_per_position (raw : List Obs) :
    ((results LOWER_THRESH UPPER_THRESH raw).map PositionStats.pos_0b).Sorted (· < ·)
    ∧ ∀ p : Int,
        p ∈ (results LOWER_THRESH UPPER_THRESH raw).map PositionStats.pos_0b
          ↔ p ∈ raw.map Obs.pos_0b := by
  rw [results_map_pos]
  exact ⟨sortedPositions_sorted_lt raw, fun _ => mem_sortedPositions⟩

/-- C10: every emitted row covers at least one observation, so the two fraction
fields divide by a nonzero coverage and are defined rational values, never the
not-a-number result. -/
theorem covg_positive_fracs_defined (raw : List Obs) (r : PositionStats)
    (hr : r ∈ results LOWER_THRESH UPPER_THRESH raw) :
    1 ≤ r.covg
    ∧ r.frac_below_lower_thresh
        = some ((r.num_below_lower_thresh : ℚ) / r.covg)
    ∧ r.frac_above_upper_thresh
        = some ((r.num_above_upper_thresh : ℚ) / r.covg) := by
  obtain ⟨p, hp, rfl⟩ := mem_results.mp hr
  have hpos : 0 < (statsFor LOWER_THRESH UPPER_THRESH raw p).covg := by
    rw [statsFor_covg]
    obtain ⟨o, ho, hop⟩ := List.mem_map.mp (mem_sortedPositions.mp hp)
    exact List.length_pos.mpr
      (List.ne_nil_of_mem (List.mem_filter.mpr ⟨ho, by simp [hop]⟩))
  have hc : ((statsFor LOWER_THRESH UPPER_THRESH raw p).covg : ℚ) ≠ 0 := by
    exact_mod_cast hpos.ne'
  exact ⟨hpos, by rw [statsFor_frac_below]; exact nanDiv_eq_some hc,
    by rw [statsFor_frac_above]; exact nanDiv_eq_some hc⟩

theorem covg_positive_fracs_defined_witness :
    (let r := statsFor LOWER_THRESH UPPER_THRESH (longify exampleWide) 0
     1 ≤ r.covg
     ∧ r.frac_below_lower_thresh
         = some ((r.num_below_lower_thresh : ℚ) / r.covg)
     ∧ r.frac_above_upper_thresh
         = some ((r.num_above_upper_thresh : ℚ) / r.covg)) :=
  covg_positive_fracs_defined (longify exampleWide)
    (statsFor LOWER_THRESH UPPER_THRESH (longify exampleWide) 0)
    (statsFor_mem_results (by rw [exampleWide_positions]; simp))

/-- C8: on the spec's end-to-end example (3 reads over positions 0 and 1 with
p-values 0.01, 0.50, 0.60 at position 0 and 0.02, 0.03, missing at position 1)
the aggregator emits exactly the two rows of the spec, ascending by position:
position 0 with counts 1, 2, coverage 3, f-value 1/3, d-value 1/5, and
position 1 with counts 2, 0, coverage 2, f-value 1, d-value 1/2. -/
theorem end_to_end_example :
    results LOWER_THRESH UPPER_THRESH (longify exampleWide)
      = [⟨0, 1, 2, 3, some (1/3), some (2/3), some (1/3), some (1/5)⟩,
         ⟨1, 2, 0, 2, some 1, some 0, some 1, some (1/2)⟩] := by
  norm_num [results, sortedPositions, longify, exampleWide, statsFor, nanDiv,
    LOWER_THRESH, UPPER_THRESH, List.filter, List.insertionSort,
    List.orderedInsert, List.dedup]

/-- C3 counterexample: one observation with p-value 0.2, strictly between the
thresholds.  The row is emitted with `f_value` NaN, but `d_value` is the
number 0 (the denominator is `0 + 0 + 2 = 2`), not the not-a-number result. -/
theorem zero_bucket_d_value_is_zero_not_nan :
    (LOWER_THRESH < (1:ℚ)/5 ∧ (1:ℚ)/5 < UPPER_THRESH)
    ∧ results LOWER_THRESH UPPER_THRESH [⟨"r1", 0, 1/5⟩]
        = [⟨0, 0, 0, 1, some 0, some 0, none, some 0⟩]
    ∧ some (0:ℚ) ≠ (none : Option ℚ) := by
  refine ⟨by norm_num [LOWER_THRESH, UPPER_THRESH], ?_, by simp⟩
  norm_num [results, sortedPositions, statsFor, nanDiv, LOWER_THRESH,
    UPPER_THRESH, List.filter, List.insertionSort, List.orderedInsert,
    List.dedup]

/-- C3 (amended): for a position all of whose p-values lie strictly between the
thresholds, the output row is still emitted, with both bucket counts zero; its
`f_value` resolves to the defined not-a-number result, while its `d_value`
resolves to the number 0 — neither computation crashes. -/
theorem zero_bucket_row_emitted (raw : List Obs) (p : Int)
    (hp : p ∈ raw.map Obs.pos_0b)
    (hall : ∀ o ∈ raw, o.pos_0b = p →
      LOWER_THRESH < o.pval ∧ o.pval < UPPER_THRESH) :
    statsFor LOWER_THRESH UPPER_THRESH raw p ∈ results LOWER_THRESH UPPER_THRESH raw
    ∧ (statsFor LOWER_THRESH UPPER_THRESH raw p).num_below_lower_thresh = 0
    ∧ (statsFor LOWER_THRESH UPPER_THRESH raw p).num_above_upper_thresh = 0
    ∧ (statsFor LOWER_THRESH UPPER_THRESH raw p).f_value = none
    ∧ (statsFor LOWER_THRESH UPPER_THRESH raw p).d_value = some 0 := by
  have hb : (statsFor LOWER_THRESH UPPER_THRESH raw p).num_below_lower_thresh = 0 := by
    rw [statsFor_num_below, List.length_eq_zero, List.filter_eq_nil_iff]
    intro o ho
    simp only [decide_eq_true_eq, not_and]
    intro hop hlt
    exact absurd hlt (not_lt.mpr (hall o ho hop).1.le)
  have ha : (statsFor LOWER_THRESH UPPER_THRESH raw p).num_above_upper_thresh = 0 := by
    rw [statsFor_num_above, List.length_eq_zero, List.filter_eq_nil_iff]
    intro o ho
    simp only [decide_eq_true_eq, not_and]
    intro hop hlt
    exact absurd hlt (not_lt.mpr (hall o ho hop).2.le)
  refine ⟨statsFor_mem_results hp, hb, ha, ?_, ?_⟩
  · rw [statsFor_f_value, hb, ha]
    norm_num [nanDiv]
  · rw [statsFor_d_value, hb, ha]
    norm_num [nanDiv]

theorem zero_bucket_row_emitted_witness :
    (let raw : List Obs := [⟨"r1", 0, 1/5⟩]
     let r := statsFor LOWER_THRESH UPPER_THRESH raw 0
     r ∈ results LOWER_THRESH UPPER_THRESH raw
     ∧ r.num_below_lower_thresh = 0
     ∧ r.num_above_upper_thresh = 0
     ∧ r.f_value = none
     ∧ r.d_value = some 0) :=
  zero_bucket_row_emitted [⟨"r1", 0, 1/5⟩] 0 (by simp)
    (by
      intro o ho hop
      rw [List.mem_singleton] at ho
      subst ho
      norm_num [LOWER_THRESH, UPPER_THRESH])

/-- C5 counterexample: one observation with p-value 0.5 gives a row with
`num_above_upper_thresh = 1 > 0` (so a bucket count is positive and `f_value`
is defined with a positive denominator), yet `d_value = 0`, which is not
strictly between 0 and 1, and `f_value = 0 = d_value`, so `d_value < f_value`
fails as well. -/
theorem dampening_bound_fails_on_above_only :
    results LOWER_THRESH UPPER_THRESH [⟨"r1", 0, 1/2⟩]
      = [⟨0, 0, 1, 1, some 0, some 1, some 0, some 0⟩]
    ∧ ¬((0:ℚ) < 0) := by
  refine ⟨?_, lt_irrefl 0⟩
  norm_num [results, sortedPositions, statsFor, nanDiv, LOWER_THRESH,
    UPPER_THRESH, List.filter, List.insertionSort, List.orderedInsert,
    List.dedup]

/-- C5 (amended): for every output row whose `num_below_lower_thresh` is
positive, `d_value` is a defined rational strictly between 0 and 1, `f_value`
is defined, and `d_value < f_value`. -/
theorem dampening_bounds (raw : List Obs) (r : PositionStats)
    (hr : r ∈ results LOWER_THRESH UPPER_THRESH raw)
    (hb : 0 < r.num_below_lower_thresh) :
    ∃ d f : ℚ, r.d_value = some d ∧ r.f_value = some f
      ∧ 0 < d ∧ d < 1 ∧ d < f := by
  obtain ⟨p, -, rfl⟩ := mem_results.mp hr
  rw [statsFor_d_value, statsFor_f_value]
  set b := (statsFor LOWER_THRESH UPPER_THRESH raw p).num_below_lower_thresh with hbd
  set a := (statsFor LOWER_THRESH UPPER_THRESH raw p).num_above_upper_thresh with had
  have hB : (0:ℚ) < b := by exact_mod_cast hb
  have hA : (0:ℚ) ≤ a := Nat.cast_nonneg a
  have hBA : (0:ℚ) < (b:ℚ) + a := by linarith
  have hBA2 : (0:ℚ) < (b:ℚ) + a + 2 := by linarith
  refine ⟨(b:ℚ) / ((b:ℚ) + a + 2), (b:ℚ) / ((b:ℚ) + a),
    nanDiv_eq_some hBA2.ne', nanDiv_eq_some hBA.ne',
    div_pos hB hBA2, ?_, ?_⟩
  · rw [div_lt_one hBA2]
    linarith
  · exact div_lt_div_of_pos_left hB hBA (by linarith)

theorem dampening_bounds_witness :
    (let raw : List Obs := [⟨"r1", 0, 1/100⟩]
     let r := statsFor LOWER_THRESH UPPER_THRESH raw 0
     ∃ d f : ℚ, r.d_value = some d ∧ r.f_value = some f
       ∧ 0 < d ∧ d < 1 ∧ d < f) :=
  dampening_bounds [⟨"r1", 0, 1/100⟩]
    (statsFor LOWER_THRESH UPPER_THRESH [⟨"r1", 0, 1/100⟩] 0)
    (statsFor_mem_results (by simp))
    (by norm_num [statsFor, LOWER_THRESH, List.filter])

/-- C6: if the loaded wide table has a duplicate read id among its row labels,
the pipeline fails with the duplicate-key error and produces no output;
if the read ids are unique, the guard passes silently and the pipeline
produces the aggregated output. -/
theorem uniqueness_guard (w : WideTable) :
    (¬(w.rows.map Prod.fst).Nodup →
        pipeline w = Except.error PipelineError.duplicateKey)
    ∧ ((w.rows.map Prod.fst).Nodup →
        pipeline w = Except.ok (results LOWER_THRESH UPPER_THRESH (longify w))) := by
  constructor <;> intro h <;> simp [pipeline, h]

theorem uniqueness_guard_witness :
    pipeline dupWide = Except.error PipelineError.duplicateKey
    ∧ pipeline exampleWide
        = Except.ok (results LOWER_THRESH UPPER_THRESH (longify exampleWide)) :=
  ⟨(uniqueness_guard dupWide).1 (by simp [dupWide]),
   (uniqueness_guard exampleWide).2 (by simp [exampleWide])⟩

/-! ## Round-trip lemmas -/

theorem find?_pair_map {α β : Type} [DecidableEq α] (l : List α) (g : α → β) (x : α) :
    ((l.map fun a => (a, g a)).find? fun ab => ab.1 = x)
      = if x ∈ l then some (x, g x) else none := by
  induction l with
  | nil => rfl
  | cons c t ih =>
    by_cases hc : c = x
    · subst hc
      simp [List.find?_cons]
    · simp [List.find?_cons, hc, ih, Ne.symm hc]

theorem zip_self_map {α β : Type} (l : List α) (f : α → β) :
    l.zip (l.map f) = l.map fun a => (a, f a) := by
  induction l with
  | nil => rfl
  | cons c t ih => simp [ih]

theorem map_fst_zip_sublist {α β : Type} (l1 : List α) (l2 : List β) :
    ((l1.zip l2).map Prod.fst).Sublist l1 := by
  induction l1 generalizing l2 with
  | nil => simp
  | cons a t ih =>
    cases l2 with
    | nil => simp
    | cons b t2 => simpa using (ih t2).cons₂ a

/-- The pivoted table looks up exactly the first matching observation: reading
any cell of `widify obs` finds the first record of `obs` with that read id and
position, in every case (present, absent, unknown row or column). -/
theorem cellAt_widify (obs : List Obs) (r : String) (p : Int) :
    cellAt (widify obs) r p
      = (obs.find? fun o => o.read_id = r ∧ o.pos_0b = p).map Obs.pval := by
  have hrowsw : (widify obs).rows
      = ((obs.map Obs.read_id).dedup).map fun r' =>
          (r', (sortedPositions obs).map fun p' =>
            (obs.find? fun o => o.read_id = r' ∧ o.pos_0b = p').map Obs.pval) := rfl
  have hcolsw : (widify obs).cols = sortedPositions obs := rfl
  unfold cellAt
  rw [hrowsw, hcolsw, find?_pair_map]
  by_cases hr : r ∈ (obs.map Obs.read_id).dedup
  · rw [if_pos hr, Option.some_bind, zip_self_map, find?_pair_map]
    by_cases hp : p ∈ sortedPositions obs
    · rw [if_pos hp, Option.some_bind]
    · rw [if_neg hp, Option.none_bind, eq_comm, Option.map_eq_none',
        List.find?_eq_none]
      intro o ho
      simp only [decide_eq_true_eq, not_and]
      intro _ hpos
      exact hp (mem_sortedPositions.mpr (List.mem_map.mpr ⟨o, ho, hpos⟩))
  · rw [if_neg hr, Option.none_bind, eq_comm, Option.map_eq_none',
      List.find?_eq_none]
    intro o ho
    simp only [decide_eq_true_eq, not_and]
    intro hread
    exact fun _ => hr (List.mem_dedup.mpr (List.mem_map.mpr ⟨o, ho, hread⟩))

/-- Observations generated from one row of cells match the find-key only if the
row's read id is the sought one and the sought position occurs among the cell
positions. -/
theorem find?_cells_none (l : List (Int × Option ℚ)) (rid r : String) (p : Int)
    (h : rid ≠ r ∨ p ∉ l.map Prod.fst) :
    ((l.filterMap fun pc => pc.2.map fun v => Obs.mk rid pc.1 v).find?
        fun o => o.read_id = r ∧ o.pos_0b = p) = none := by
  rw [List.find?_eq_none]
  intro o ho
  simp only [List.mem_filterMap, Option.map_eq_some'] at ho
  obtain ⟨pc, hpc, v, hv, rfl⟩ := ho
  simp only [decide_eq_true_eq, not_and]
  intro hread hpos
  rcases h with h | h
  · exact h hread
  · exact h (List.mem_map.mpr ⟨pc, hpc, hpos⟩)

/-- Finding an observation generated from a row of cells with distinct
positions is finding the cell at the sought position. -/
theorem find?_cells (l : List (Int × Option ℚ)) (hl : (l.map Prod.fst).Nodup)
    (rid : String) (p : Int) :
    ((l.filterMap fun pc => pc.2.map fun v => Obs.mk rid pc.1 v).find?
        fun o => o.read_id = rid ∧ o.pos_0b = p)
      = ((l.find? fun pc => pc.1 = p).bind Prod.snd).map (Obs.mk rid p) := by
  induction l with
  | nil => rfl
  | cons qc t ih =>
    rw [List.map_cons, List.nodup_cons] at hl
    obtain ⟨hq, ht⟩ := hl
    rcases hc : qc.2 with _ | v
    · rw [show (qc :: t).filterMap (fun pc => pc.2.map fun v => Obs.mk rid pc.1 v)
          = t.filterMap fun pc => pc.2.map fun v => Obs.mk rid pc.1 v by
        simp [List.filterMap_cons, hc]]
      by_cases hqp : qc.1 = p
      · rw [find?_cells_none t rid rid p (Or.inr (hqp ▸ hq))]
        simp [List.find?_cons, hqp, hc]
      · rw [ih ht]
        simp [List.find?_cons, hqp]
    · by_cases hqp : qc.1 = p
      · simp [List.filterMap_cons, hc, List.find?_cons, hqp]
      · rw [show (qc :: t).filterMap (fun pc => pc.2.map fun v => Obs.mk rid pc.1 v)
            = Obs.mk rid qc.1 v :: (t.filterMap fun pc =>
                pc.2.map fun v => Obs.mk rid pc.1 v) by
          simp [List.filterMap_cons, hc]]
        rw [List.find?_cons_of_neg _ (by simp [hqp]),
          List.find?_cons_of_neg _ (by simp [hqp])]
        exact ih ht

/-- No observation generated from rows whose read ids avoid `r` matches the
find-key for `r`. -/
theorem find?_rows_none (cols : List Int)
    (t : List (String × List (Option ℚ))) (r : String) (p : Int)
    (h : r ∉ t.map Prod.fst) :
    ((t.flatMap fun row => (cols.zip row.2).filterMap fun pc =>
        pc.2.map fun v => Obs.mk row.1 pc.1 v).find?
      fun o => o.read_id = r ∧ o.pos_0b = p) = none := by
  rw [List.find?_eq_none]
  intro o ho
  simp only [List.mem_flatMap, List.mem_filterMap, Option.map_eq_some'] at ho
  obtain ⟨row, hrow, pc, hpc, v, hv, rfl⟩ := ho
  simp only [decide_eq_true_eq, not_and]
  intro hread
  exact fun _ => h (List.mem_map.mpr ⟨row, hrow, hread⟩)

/-- Finding an observation of the long form of a table with unique read ids and
distinct column labels is reading the corresponding cell of the table. -/
theorem find?_longify_rows (cols : List Int) (hcols : cols.Nodup)
    (rows : List (String × List (Option ℚ)))
    (hrows : (rows.map Prod.fst).Nodup) (r : String) (p : Int) :
    ((rows.flatMap fun row => (cols.zip row.2).filterMap fun pc =>
        pc.2.map fun v => Obs.mk row.1 pc.1 v).find?
      fun o => o.read_id = r ∧ o.pos_0b = p).map Obs.pval
    = (rows.find? fun row => row.1 = r).bind fun row =>
        ((cols.zip row.2).find? fun pc => pc.1 = p).bind Prod.snd := by
  induction rows with
  | nil => rfl
  | cons row t ih =>
    rw [List.map_cons, List.nodup_cons] at hrows
    obtain ⟨hhd, htl⟩ := hrows
    rw [List.flatMap_cons, List.find?_append]
    by_cases hrr : row.1 = r
    · have hz : ((cols.zip row.2).map Prod.fst).Nodup :=
        (map_fst_zip_sublist cols row.2).nodup hcols
      rw [hrr]
      rw [find?_cells (cols.zip row.2) hz r p,
        find?_rows_none cols t r p (hrr ▸ hhd), Option.or_none,
        show ((row :: t).find? fun q => q.1 = r) = some row by
          simp [List.find?_cons, hrr],
        Option.some_bind]
      cases h : ((cols.zip row.2).find? fun pc => pc.1 = p).bind Prod.snd <;>
        simp [h]
    · rw [find?_cells_none (cols.zip row.2) row.1 r p (Or.inl hrr),
        Option.none_or,
        show ((row :: t).find? fun q => q.1 = r) = t.find? fun q => q.1 = r by
          simp [List.find?_cons, hrr]]
      exact ih htl

/-- C7: round-trip law: for a wide table with unique read ids (and distinct
position labels, part of the matrix shape of a WideTable), pivoting the long
form back (`widify (longify w)`) restores every cell of `w` — equality up to
absent-cell representation and row/column ordering, expressed cell-for-cell
through `cellAt`, which reads every form of absence as `none`. -/
theorem widify_longify_roundtrip (w : WideTable)
    (hrows : (w.rows.map Prod.fst).Nodup) (hcols : w.cols.Nodup)
    (r : String) (p : Int) :
    cellAt (widify (longify w)) r p = cellAt w r p := by
  rw [cellAt_widify]
  exact find?_longify_rows w.cols hcols w.rows hrows r p

theorem widify_longify_roundtrip_witness :
    ((exampleWide.rows.map Prod.fst).Nodup ∧ exampleWide.cols.Nodup)
    ∧ cellAt (widify (longify exampleWide)) "r3" 0 = cellAt exampleWide "r3" 0 :=
  ⟨⟨by simp [exampleWide], by simp [exampleWide]⟩,
    widify_longify_roundtrip exampleWide
      (by simp [exampleWide]) (by simp [exampleWide]) "r3" 0⟩
